import Mathlib

/-
Verification development for the sc4s_package_tree_map configuration-extraction
core.  The Python sources under src/ are shallowly embedded below: each Lean
definition mirrors one Python function (the source file and function are named
in its doc comment).  Python regular expressions are embedded by a small
backtracking matcher over `List Char` whose item lists transcribe the compiled
patterns; Python string truthiness (None / "" are falsy) is made explicit.
-/

set_option maxRecDepth 4000

namespace SC4S

/-! ### Character classes and Python string helpers -/

/-- ASCII whitespace, the `\s` class of the embedded regular expressions. -/
def isWs (c : Char) : Bool :=
  c = ' ' || c = '\t' || c = '\n' || c = '\r' || c = Char.ofNat 11 || c = Char.ofNat 12

/-- The `\w` class: letters, digits and underscore. -/
def isWordC (c : Char) : Bool := c.isAlpha || c.isDigit || c = '_'

/-- The `[\w\-]` class used for identifiers in the configuration dialect. -/
def isWordDash (c : Char) : Bool := isWordC c || c = '-'

/-- The single-quote character. -/
def quoteC : Char := Char.ofNat 39

/-- The `['\"]` class: a single or double quote. -/
def isQuoteC (c : Char) : Bool := c = quoteC || c = '"'

/-- Case-insensitive character comparison (ASCII lowering). -/
def lowerEq (a b : Char) : Bool := a.toLower = b.toLower

/-- Python `s.lower()` on ASCII text. -/
def lowerStr (s : String) : String := (s.toList.map Char.toLower).asString

/-- Python `s.upper()` on ASCII text. -/
def upperStr (s : String) : String := (s.toList.map Char.toUpper).asString

/-- Python substring containment `pat in s`. -/
def strContains (s pat : String) : Bool :=
  s.toList.tails.any fun t => pat.toList.isPrefixOf t

/-- Drop characters satisfying `p` from both ends of a list. -/
def stripBy (p : Char → Bool) (cs : List Char) : List Char :=
  ((cs.dropWhile p).reverse.dropWhile p).reverse

/-- Python `s.strip()` (whitespace from both ends). -/
def pyStrip (s : String) : String := (stripBy isWs s.toList).asString

/-- Python `s.strip('"\'')` (quote characters from both ends). -/
def pyStripQuotes (s : String) : String := (stripBy isQuoteC s.toList).asString

/-- Python single-character `s.replace(a, b)`. -/
def replCh (a b : Char) (s : String) : String :=
  (s.toList.map fun c => if c = a then b else c).asString

/-- One step of Python `str.title()`: the flag records whether the previous
character was alphabetic. -/
def pyTitleGo : Bool → List Char → List Char
  | _, [] => []
  | prevAlpha, c :: t =>
    if c.isAlpha then (if prevAlpha then c.toLower else c.toUpper) :: pyTitleGo true t
    else c :: pyTitleGo false t

/-- Python `s.title()` on ASCII text. -/
def pyTitle (s : String) : String := (pyTitleGo false s.toList).asString

/-- Python truthiness of an optional string: `None` and `""` are falsy. -/
def optTruthy : Option String → Bool
  | none => false
  | some s => s ≠ ""

/-- Python `s.split(',')` (no limit): the accumulator holds the current piece
reversed. -/
def splitCommaGo : List Char → List Char → List String
  | acc, [] => [acc.reverse.asString]
  | acc, c :: t =>
    if c = ',' then acc.reverse.asString :: splitCommaGo [] t
    else splitCommaGo (c :: acc) t

/-- Python `s.split(',')`. -/
def splitComma (s : String) : List String := splitCommaGo [] s.toList

/-! ### Data model (src/src/models/data_model.py) -/

/-- Metadata assigned by a parser (`Metadata` dataclass). -/
structure Metadata where
  index : Option String := none
  sourcetype : Option String := none
  vendor : Option String := none
  product : Option String := none
  template : Option String := none
  class_ : Option String := none
deriving DecidableEq, Repr

/-- A filter expression that matches messages (`FilterExpression` dataclass). -/
structure FilterExpression where
  filter_type : String
  pattern : String
  match_type : String := "string"
  flags : List String := []
  raw : Option String := none
deriving DecidableEq, Repr

/-- A conditional rewrite rule (`ConditionalRewrite` dataclass). -/
structure ConditionalRewrite where
  condition : Option FilterExpression := none
  metadata : Metadata := {}
  condition_type : String := "if"
deriving DecidableEq, Repr

/-- An application block that links filters to parsers (`Application` dataclass). -/
structure Application where
  name : String
  app_type : String
  filters : List FilterExpression := []
  parser_reference : Option String := none
deriving DecidableEq, Repr

/-- A complete parser definition (`ParserDefinition` dataclass). -/
structure ParserDefinition where
  name : String
  parser_type : String
  file_path : String
  metadata : Metadata := {}
  applications : List Application := []
  nested_parsers : List String := []
  conditional_rewrites : List ConditionalRewrite := []
  raw_config : Option String := none
  parse_error : Option String := none
deriving DecidableEq, Repr

/-- A vendor product (`Product` dataclass). -/
structure Product where
  name : String
  vendor : String
  parsers : List ParserDefinition := []
deriving DecidableEq, Repr

/-- A vendor (`Vendor` dataclass). -/
structure Vendor where
  name : String
  products : List Product := []
deriving DecidableEq, Repr

/-- The complete tree (`SC4STreeData` dataclass; the scrape-time metadata
dictionary carries no structural information and is omitted). -/
structure SC4STreeData where
  vendors : List Vendor := []
deriving DecidableEq, Repr

/-! ### A small backtracking regex matcher

The compiled patterns of the source are transcribed into lists of `RItem`s.
Greedy character-class runs enumerate their candidates longest-first and lazy
groups shortest-first, exactly like the Python backtracking engine; literals
carry a case-insensitivity flag reflecting `re.IGNORECASE`. -/

/-- Captured groups: group number paired with the captured characters. -/
abbrev Caps := List (Nat × List Char)

/-- One item of an embedded regular expression. -/
inductive RItem where
  | lit (ci : Bool) (s : List Char)
  | grpLit (n : Nat) (ci : Bool) (s : List Char)
  | cls (p : Char → Bool)
  | optChar (c : Char)
  | starCls (p : Char → Bool)
  | plusCls (p : Char → Bool)
  | grpCls (n : Nat) (p : Char → Bool) (one : Bool)
  | grpLazy (n : Nat)

/-- Consume a literal (case-insensitively when `ci` is set). -/
def dropLit (ci : Bool) : List Char → List Char → Option (List Char)
  | [], cs => some cs
  | _ :: _, [] => none
  | a :: s, c :: cs => if (if ci then lowerEq a c else a = c) then dropLit ci s cs else none

/-- Match a sequence of items at the head of `cs`, returning the captures and
the unconsumed suffix.  Backtracking is realized by ordered candidate
enumeration for the starred items. -/
def mloop : List RItem → List Char → Option (Caps × List Char)
  | [], cs => some ([], cs)
  | .lit ci s :: rest, cs => (dropLit ci s cs).bind fun cs' => mloop rest cs'
  | .grpLit n ci s :: rest, cs =>
    (dropLit ci s cs).bind fun cs' =>
      (mloop rest cs').map fun r => ((n, cs.take s.length) :: r.1, r.2)
  | .cls p :: rest, cs =>
    match cs with
    | [] => none
    | c :: t => if p c then mloop rest t else none
  | .optChar ch :: rest, cs =>
    match cs with
    | [] => mloop rest []
    | c :: t => if c = ch then (mloop rest t).orElse (fun _ => mloop rest (c :: t)) else mloop rest (c :: t)
  | .starCls p :: rest, cs => mloop rest (cs.dropWhile p)
  | .plusCls p :: rest, cs =>
    match cs with
    | [] => none
    | c :: t => if p c then mloop rest (t.dropWhile p) else none
  | .grpCls n p one :: rest, cs =>
    let run := cs.takeWhile p
    let lo : Nat := if one then 1 else 0
    ((List.range (run.length + 1)).reverse.filter (lo ≤ ·)).findSome? fun i =>
      (mloop rest (cs.drop i)).map fun r => ((n, cs.take i) :: r.1, r.2)
  | .grpLazy n :: rest, cs =>
    (List.range (cs.length + 1)).findSome? fun i =>
      (mloop rest (cs.drop i)).map fun r => ((n, cs.take i) :: r.1, r.2)

/-- One match found while scanning: captures, the matched text, the position
one past the match, and the unconsumed suffix. -/
structure MatchRes where
  caps : Caps
  whole : List Char
  endPos : Nat
  rest : List Char

/-- Try each alternative item list in order at the current position. -/
def firstAlt (alts : List (List RItem)) (cs : List Char) : Option (Caps × List Char) :=
  alts.findSome? fun items => mloop items cs

/-- `re.finditer`: scan left to right, emitting non-overlapping matches and
resuming after each match.  The fuel is an upper bound on the scan steps. -/
def scanAll (alts : List (List RItem)) : Nat → Nat → List Char → List MatchRes
  | 0, _, _ => []
  | fuel + 1, pos, cs =>
    match firstAlt alts cs with
    | some (caps, r) =>
      let k := cs.length - r.length
      if k = 0 then
        match cs with
        | [] => []
        | _ :: t => scanAll alts fuel (pos + 1) t
      else ⟨caps, cs.take k, pos + k, r⟩ :: scanAll alts fuel (pos + k) r
    | none =>
      match cs with
      | [] => []
      | _ :: t => scanAll alts fuel (pos + 1) t

/-- All matches of a pattern in `content` (`re.finditer`). -/
def findIter (alts : List (List RItem)) (content : List Char) : List MatchRes :=
  scanAll alts (content.length + 1) 0 content

/-- The first match of a pattern in `content` (`re.search`). -/
def searchFirst (alts : List (List RItem)) (content : List Char) : Option MatchRes :=
  (findIter alts content).head?

/-- Look up a captured group as a string (`match.group(n)`). -/
def capStr (caps : Caps) (n : Nat) : Option String :=
  (caps.find? fun e => e.1 == n).map fun e => e.2.asString

/-- Search for `kw` preceded by a word boundary (`\b`) and followed by the tail
items; the first argument carries the previous character while scanning. -/
def wbSearch (kw : List Char) (tail : List RItem) : Option Char → List Char → Bool
  | _, [] => false
  | prev, c :: t =>
    ((match prev with | none => true | some pc => !(isWordC pc)) &&
      (mloop (.lit true kw :: tail) (c :: t)).isSome) ||
    wbSearch kw tail (some c) t

/-- Shorthand for a whitespace-run item (`\s*`). -/
def wsS : RItem := .starCls isWs

/-- Shorthand for a non-empty whitespace-run item (`\s+`). -/
def wsP : RItem := .plusCls isWs

/-- Case-insensitive literal item. -/
def litCI (s : String) : RItem := .lit true s.toList

/-- Case-sensitive literal item. -/
def litCS (s : String) : RItem := .lit false s.toList

/-! ### Balanced-delimiter extraction
(src/src/parser/rewrite_parser.py `_extract_balanced_parens`,
 src/src/parser/application_parser.py `_extract_balanced_braces`) -/

/-- The while-loop of the two balanced-delimiter extractors: `count` is the
current nesting depth; the characters before the closer that returns the
depth to zero are collected, `none` signals exhausted input (unbalanced). -/
def extract_balanced_inner (oc cc : Char) : List Char → Nat → Option (List Char)
  | [], _ => none
  | c :: t, count =>
    let count' := if c = oc then count + 1 else if c = cc then count - 1 else count
    if count' = 0 then some []
    else
      match extract_balanced_inner oc cc t count' with
      | some tail => some (c :: tail)
      | none => none

/-- Generic form of the two extractors: given the index of an opening
delimiter, return the content strictly inside the matching pair, or `[]` when
the position does not hold the opener or the delimiters are unbalanced. -/
def extract_balanced (oc cc : Char) (content : List Char) (start_pos : Nat) : List Char :=
  match content.get? start_pos with
  | some c =>
    if c = oc then
      match extract_balanced_inner oc cc (content.drop (start_pos + 1)) 1 with
      | some inner => inner
      | none => []
    else []
  | none => []

/-- `RewriteParser._extract_balanced_parens`. -/
def extract_balanced_parens (content : List Char) (start_pos : Nat) : List Char :=
  extract_balanced '(' ')' content start_pos

/-- `ApplicationParser._extract_balanced_braces`. -/
def extract_balanced_braces (content : List Char) (start_pos : Nat) : List Char :=
  extract_balanced '\x7b' '\x7d' content start_pos

/-! ### Filter parsing (src/src/parser/filter_parser.py) -/

/-- The `type(...)` sub-clause of `PROGRAM_PATTERN` and friends (group 2). -/
def typeClause (ci : Bool) : List RItem :=
  [.lit ci "type".toList, wsS, .lit ci "(".toList, wsS, .grpCls 2 isWordC true, wsS, .lit ci ")".toList]

/-- The `flags(...)` sub-clause of `PROGRAM_PATTERN` and friends (group 3). -/
def flagsClause (ci : Bool) : List RItem :=
  [.lit ci "flags".toList, wsS, .lit ci "(".toList, wsS,
   .grpCls 3 (fun c => c ≠ ')') true, wsS, .lit ci ")".toList]

/-- `PROGRAM_PATTERN` / `MESSAGE_PATTERN` / `HOST_PATTERN`
(`kw\s*\(\s*['\"]([^'\"]+)['\"]\s*(?:type\(...​\))?\s*(?:flags\(...​\))?\s*\)`,
compiled with `re.IGNORECASE`): the two optional clauses are flattened into
four alternatives in Python's backtracking order. -/
def kwFilterAlts (kw : String) : List (List RItem) :=
  let base : List RItem :=
    [litCI kw, wsS, litCI "(", wsS, .cls isQuoteC,
     .grpCls 1 (fun c => !(isQuoteC c)) true, .cls isQuoteC, wsS]
  [base ++ typeClause true ++ [wsS] ++ flagsClause true ++ [wsS, litCI ")"],
   base ++ typeClause true ++ [wsS, wsS, litCI ")"],
   base ++ [wsS] ++ flagsClause true ++ [wsS, litCI ")"],
   base ++ [wsS, wsS, litCI ")"]]

/-- `FILTER_FUNC_PATTERN` (`(\w+)\s*\(\s*['\"]([^'\"]+)['\"]\s*([^)]*)\)`). -/
def genericAlts : List (List RItem) :=
  [[.grpCls 1 isWordC true, wsS, litCI "(", wsS, .cls isQuoteC,
    .grpCls 2 (fun c => !(isQuoteC c)) true, .cls isQuoteC, wsS,
    .grpCls 3 (fun c => c ≠ ')') false, litCI ")"]]

/-- The case-sensitive inner search `type\s*\(\s*(\w+)\s*\)` used on the
options of a generic filter call and on conditional expressions. -/
def typeSearchAlts : List (List RItem) :=
  [[litCS "type", wsS, litCS "(", wsS, .grpCls 1 isWordC true, wsS, litCS ")"]]

/-- The case-sensitive inner search `flags\s*\(\s*([^)]+)\s*\)`. -/
def flagsSearchAlts : List (List RItem) :=
  [[litCS "flags", wsS, litCS "(", wsS, .grpCls 1 (fun c => c ≠ ')') true, wsS, litCS ")"]]

/-- `FilterParser._parse_flags`: split on commas, strip whitespace then quote
characters, drop empties. -/
def parse_flags (flags_str : String) : List String :=
  if flags_str = "" then []
  else (((splitComma flags_str).map fun f => pyStripQuotes (pyStrip f)).filter (· ≠ ""))

/-- Build the `FilterExpression` of one `program`/`message`/`host` match, as in
`FilterParser._parse_program_filters` and its two siblings. -/
def mkKwFilter (kw : String) (m : MatchRes) : FilterExpression :=
  let mt := (capStr m.caps 2).getD ""
  { filter_type := kw
    pattern := (capStr m.caps 1).getD ""
    match_type := if mt = "" then "string" else mt
    flags := parse_flags ((capStr m.caps 3).getD "")
    raw := some m.whole.asString }

/-- `FilterParser._parse_program_filters`. -/
def parse_program_filters (content : String) : List FilterExpression :=
  (findIter (kwFilterAlts "program") content.toList).map (mkKwFilter "program")

/-- `FilterParser._parse_message_filters`. -/
def parse_message_filters (content : String) : List FilterExpression :=
  (findIter (kwFilterAlts "message") content.toList).map (mkKwFilter "message")

/-- `FilterParser._parse_host_filters`. -/
def parse_host_filters (content : String) : List FilterExpression :=
  (findIter (kwFilterAlts "host") content.toList).map (mkKwFilter "host")

/-- `FilterParser._parse_generic_filters`: every generic call whose name is not
one of the three reserved names; `type`/`flags` are searched in the options
only when the options text is non-empty (Python truthiness). -/
def parse_generic_filters (content : String) : List FilterExpression :=
  (findIter genericAlts content.toList).filterMap fun m =>
    let fn := (capStr m.caps 1).getD ""
    if (["program", "message", "host"].contains (lowerStr fn)) then none
    else
      let opts := (capStr m.caps 3).getD ""
      let mt :=
        if opts = "" then "string"
        else
          match searchFirst typeSearchAlts opts.toList with
          | some r => (capStr r.caps 1).getD "string"
          | none => "string"
      let fl :=
        if opts = "" then []
        else
          match searchFirst flagsSearchAlts opts.toList with
          | some r => parse_flags ((capStr r.caps 1).getD "")
          | none => []
      some { filter_type := lowerStr fn, pattern := (capStr m.caps 2).getD "",
             match_type := mt, flags := fl, raw := some m.whole.asString }

/-- `FilterParser.parse_filter_block`: the three specific sweeps, with the
generic sweep as fallback when they all come up empty. -/
def parse_filter_block (content : String) : List FilterExpression :=
  let fs := parse_program_filters content ++ parse_message_filters content ++
            parse_host_filters content
  if fs.isEmpty then parse_generic_filters content else fs

/-- Candidate consumed lengths, in Python backtracking order, for the iterated
sub-pattern `(\{[^}]*\}[^}]*)*` of `extract_filter_blocks`. -/
def chunkStarCands : Nat → List Char → List Nat
  | 0, _ => [0]
  | fuel + 1, cs =>
    (match cs with
     | '\x7b' :: t =>
       let b := t.takeWhile (· ≠ '\x7d')
       (match t.drop b.length with
        | '\x7d' :: u =>
          let cMax := (u.takeWhile (· ≠ '\x7d')).length
          (List.range (cMax + 1)).reverse.flatMap fun ci =>
            (chunkStarCands fuel (u.drop ci)).map fun k => b.length + 2 + ci + k
        | _ => [])
     | _ => []) ++ [0]

/-- Match the capture group `([^}]*(?:\{[^}]*\}[^}]*)*)` followed by the
closing `\}` of `extract_filter_blocks`, returning the group and the suffix
after the closing brace. -/
def filterBodyMatch (cs : List Char) : Option (List Char × List Char) :=
  let aMax := (cs.takeWhile (· ≠ '\x7d')).length
  ((List.range (aMax + 1)).reverse.flatMap fun a =>
      (chunkStarCands (cs.length + 1) (cs.drop a)).map (a + ·)).findSome? fun g =>
    match cs.drop g with
    | c :: r => if c = '\x7d' then some (cs.take g, r) else none
    | [] => none

/-- The scan loop of `FilterParser.extract_filter_blocks`. -/
def extract_filter_blocks_scan : Nat → List Char → List String
  | 0, _ => []
  | fuel + 1, cs =>
    match mloop [litCS "filter", wsS, litCS "\x7b"] cs with
    | some (_, r) =>
      (match filterBodyMatch r with
       | some (g, rest) => g.asString :: extract_filter_blocks_scan fuel rest
       | none =>
         match cs with
         | [] => []
         | _ :: t => extract_filter_blocks_scan fuel t)
    | none =>
      match cs with
      | [] => []
      | _ :: t => extract_filter_blocks_scan fuel t

/-- `FilterParser.extract_filter_blocks`
(`filter\s*\{([^}]*(?:\{[^}]*\}[^}]*)*)\}`, `re.DOTALL`). -/
def extract_filter_blocks (content : String) : List String :=
  extract_filter_blocks_scan (content.toList.length + 1) content.toList

/-! ### Rewrite parsing (src/src/parser/rewrite_parser.py) -/

/-- `SPLUNK_DEST_START_PATTERN` (`r_set_splunk_dest_default\s*\(`,
case-sensitive). -/
def splunkAlts : List (List RItem) :=
  [[litCS "r_set_splunk_dest_default", wsS, litCS "("]]

/-- `FIELD_PATTERN` (`(\w+)\s*\(\s*['\"]([^'\"]+)['\"]\s*\)`, case-sensitive). -/
def fieldAlts : List (List RItem) :=
  [[.grpCls 1 isWordC true, wsS, litCS "(", wsS, .cls isQuoteC,
    .grpCls 2 (fun c => !(isQuoteC c)) true, .cls isQuoteC, wsS, litCS ")"]]

/-- Python dict lookup after repeated assignment: the last binding wins. -/
def lookupLast (ps : List (String × String)) (k : String) : Option String :=
  (ps.reverse.find? fun e => e.1 == k).map fun e => e.2

/-- `RewriteParser.parse_r_set_splunk_dest_default`: locate the call, extract
its argument list with the balanced-parenthesis extractor, collect every
`field("value")` pair into a dict, and map the six recognized fields. -/
def parse_r_set_splunk_dest_default (content : String) : Metadata :=
  match searchFirst splunkAlts content.toList with
  | none => {}
  | some m =>
    let body := extract_balanced_parens content.toList (m.endPos - 1)
    if body.isEmpty then {}
    else
      let pairs := (findIter fieldAlts body).map fun fm =>
        ((capStr fm.caps 1).getD "", (capStr fm.caps 2).getD "")
      { index := lookupLast pairs "index"
        sourcetype := lookupLast pairs "sourcetype"
        vendor := lookupLast pairs "vendor"
        product := lookupLast pairs "product"
        template := lookupLast pairs "template"
        class_ := lookupLast pairs "class" }

/-- The conditional sweep pattern `if\s*\((.*?)\)\s*\{(.*?)\}`
(`re.DOTALL | re.IGNORECASE`); note the absence of a word boundary. -/
def ifAlts : List (List RItem) :=
  [[litCI "if", wsS, litCS "(", .grpLazy 1, litCS ")", wsS, litCS "\x7b", .grpLazy 2, litCS "\x7d"]]

/-- The sweep pattern `elif\s*\((.*?)\)\s*\{(.*?)\}`. -/
def elifAlts : List (List RItem) :=
  [[litCI "elif", wsS, litCS "(", .grpLazy 1, litCS ")", wsS, litCS "\x7b", .grpLazy 2, litCS "\x7d"]]

/-- The sweep pattern `else\s*\{(.*?)\}`. -/
def elseAlts : List (List RItem) :=
  [[litCI "else", wsS, litCS "\x7b", .grpLazy 1, litCS "\x7d"]]

/-- The alternation `(program|message|host)\s*\(\s*['\"]([^'\"]+)['\"]\s*\)`
(`re.IGNORECASE`) of `_parse_condition_filter`; group 1 captures the keyword
as matched. -/
def condKwAlts : List (List RItem) :=
  ["program", "message", "host"].map fun kw =>
    [.grpLit 1 true kw.toList, wsS, litCI "(", wsS, .cls isQuoteC,
     .grpCls 2 (fun c => !(isQuoteC c)) true, .cls isQuoteC, wsS, litCI ")"]

/-- `RewriteParser._parse_condition_filter`: recognize a predicate call with
optional `type`/`flags`, otherwise store the condition verbatim with kind
`filter`.  The flags here are comma-split and whitespace-stripped only. -/
def parse_condition_filter (condition : String) : FilterExpression :=
  match searchFirst condKwAlts condition.toList with
  | some m =>
    { filter_type := lowerStr ((capStr m.caps 1).getD "")
      pattern := (capStr m.caps 2).getD ""
      match_type :=
        match searchFirst typeSearchAlts condition.toList with
        | some r => (capStr r.caps 1).getD "string"
        | none => "string"
      flags :=
        match searchFirst flagsSearchAlts condition.toList with
        | some r => (splitComma ((capStr r.caps 1).getD "")).map pyStrip
        | none => []
      raw := some condition }
  | none =>
    { filter_type := "filter", pattern := condition, match_type := "string",
      flags := [], raw := some condition }

/-- `RewriteParser.parse_conditional_rewrites`: three independent sweeps over
the full text, concatenated in the order if, elif, else. -/
def parse_conditional_rewrites (content : String) : List ConditionalRewrite :=
  ((findIter ifAlts content.toList).map fun m =>
    { condition := some (parse_condition_filter (pyStrip ((capStr m.caps 1).getD "")))
      metadata := parse_r_set_splunk_dest_default ((capStr m.caps 2).getD "")
      condition_type := "if" }) ++
  ((findIter elifAlts content.toList).map fun m =>
    { condition := some (parse_condition_filter (pyStrip ((capStr m.caps 1).getD "")))
      metadata := parse_r_set_splunk_dest_default ((capStr m.caps 2).getD "")
      condition_type := "elif" }) ++
  ((findIter elseAlts content.toList).map fun m =>
    ({ condition := none
       metadata := parse_r_set_splunk_dest_default ((capStr m.caps 1).getD "")
       condition_type := "else" } : ConditionalRewrite))

/-- `RewriteParser.has_conditional_logic`: word-boundary searches for
`\bif\s*\(`, `\belif\s*\(`, `\belse\s*\{`. -/
def has_conditional_logic (content : String) : Bool :=
  wbSearch "if".toList [wsS, litCS "("] none content.toList ||
  wbSearch "elif".toList [wsS, litCS "("] none content.toList ||
  wbSearch "else".toList [wsS, litCS "\x7b"] none content.toList

/-! ### Block parser extraction (src/src/parser/block_parser.py) -/

/-- `BLOCK_PARSER_PATTERN`
(`block\s+parser\s+([\w\-]+)\s*\(\s*\)\s*\{(.*?)\n\s*\};`,
`re.DOTALL | re.IGNORECASE`). -/
def blockAlts : List (List RItem) :=
  [[litCI "block", wsP, litCI "parser", wsP, .grpCls 1 isWordDash true, wsS,
    litCS "(", wsS, litCS ")", wsS, litCS "\x7b", .grpLazy 2, litCS "\n", wsS, litCS "\x7d;"]]

/-- `NESTED_PARSER_PATTERN`
(`(csv-parser|kv-parser|regexp-parser|json-parser|date-parser)\s*\(`,
`re.IGNORECASE`); group 1 captures the keyword as matched. -/
def nestedAlts : List (List RItem) :=
  ["csv-parser", "kv-parser", "regexp-parser", "json-parser", "date-parser"].map fun kw =>
    [.grpLit 1 true kw.toList, wsS, litCS "("]

/-- `BlockParser.extract_block_parsers`. -/
def extract_block_parsers (content : String) : List (String × String) :=
  (findIter blockAlts content.toList).map fun m =>
    ((capStr m.caps 1).getD "", (capStr m.caps 2).getD "")

/-- `BlockParser._extract_nested_parsers`: distinct kinds in first-seen order. -/
def extract_nested_parsers (content : String) : List String :=
  ((findIter nestedAlts content.toList).map fun m => (capStr m.caps 1).getD "").foldl
    (fun acc x => if acc.contains x then acc else acc ++ [x]) []

/-- The per-block parse method of `BlockParser` (renamed here): metadata,
conditional rewrites (only when conditional logic is detected) and nested
parser kinds. -/
def parse_block_parser_fields (parser_content : String) :
    Metadata × List ConditionalRewrite × List String :=
  (parse_r_set_splunk_dest_default parser_content,
   (if has_conditional_logic parser_content then parse_conditional_rewrites parser_content
    else []),
   extract_nested_parsers parser_content)

/-- `BlockParser.infer_parser_type`: name keywords first, then body keywords,
defaulting to syslog. -/
def infer_parser_type (parser_name parser_content : String) : String :=
  let name_lower := lowerStr parser_name
  if strContains name_lower "syslog" then "syslog"
  else if strContains name_lower "json" then "json"
  else if strContains name_lower "cef" then "cef"
  else if strContains name_lower "leef" then "leef"
  else if strContains name_lower "raw" then "raw"
  else
    let content_lower := lowerStr parser_content
    if strContains content_lower "json-parser" then "json"
    else if strContains content_lower "cef" then "cef"
    else if strContains content_lower "leef" then "leef"
    else "syslog"

/-! ### Application extraction (src/src/parser/application_parser.py) -/

/-- `APPLICATION_START_PATTERN`
(`application\s+([\w\-]+)\s*\[([\w\-]+)\]\s*\{`, `re.IGNORECASE`). -/
def appAlts : List (List RItem) :=
  [[litCI "application", wsP, .grpCls 1 isWordDash true, wsS, litCS "[",
    .grpCls 2 isWordDash true, litCS "]", wsS, litCS "\x7b"]]

/-- `PARSER_REF_PATTERN`
(`parser\s*\{\s*([\w\-]+)\s*\(\s*\)\s*;?\s*\}`, `re.IGNORECASE`). -/
def parserRefAlts : List (List RItem) :=
  [[litCI "parser", wsS, litCS "\x7b", wsS, .grpCls 1 isWordDash true, wsS,
    litCS "(", wsS, litCS ")", wsS, .optChar ';', wsS, litCS "\x7d"]]

/-- `ApplicationParser.extract_applications`: balanced-brace extraction is
anchored at the opening brace of each declaration header
(`match.end() - 1`), and only non-empty bodies are kept. -/
def extract_applications (content : String) : List (String × String × String) :=
  (findIter appAlts content.toList).filterMap fun m =>
    let body := extract_balanced_braces content.toList (m.endPos - 1)
    if body.isEmpty then none
    else some ((capStr m.caps 1).getD "", (capStr m.caps 2).getD "", body.asString)

/-- `ApplicationParser._extract_parser_reference`. -/
def extract_parser_reference (content : String) : Option String :=
  (searchFirst parserRefAlts content.toList).map fun m => (capStr m.caps 1).getD ""

/-- `ApplicationParser._extract_filters`. -/
def extract_filters (content : String) : List FilterExpression :=
  (extract_filter_blocks content).flatMap parse_filter_block

/-- `ApplicationParser.parse_application`. -/
def parse_application (app_name app_type app_content : String) : Application :=
  { name := app_name, app_type := app_type,
    filters := extract_filters app_content,
    parser_reference := extract_parser_reference app_content }

/-! ### Orchestration (src/src/parser/syslog_ng_parser.py)

The source also threads a list of named filters through `parse_file`
(`FilterParser.extract_named_filters` and the `NamedFilter` model); neither
is present under src/ and the `ParserDefinition` dataclass of
src/src/models/data_model.py has no corresponding field, so that pass-through
carries no information in this data model and is omitted here. -/

/-- The application-tuple condition of `SyslogNgParser._find_orphan_applications`:
a truthy `parser_reference` that names no block parser of the same file. -/
def isOrphanApp (block_parsers : List (String × String)) (a : String × String × String) : Bool :=
  let app := parse_application a.1 a.2.1 a.2.2
  match app.parser_reference with
  | some r => r ≠ "" && !((block_parsers.map (·.1)).contains r)
  | none => false

/-- `SyslogNgParser._find_orphan_applications`. -/
def find_orphan_applications (block_parsers : List (String × String))
    (applications : List (String × String × String)) : List (String × String × String) :=
  applications.filter (isOrphanApp block_parsers)

/-- `SyslogNgParser._find_matching_applications`: applications whose reference
equals the parser's name, or whose own name equals it (self-reference). -/
def find_matching_applications (parser_name : String)
    (applications : List (String × String × String)) : List Application :=
  applications.filterMap fun a =>
    let app := parse_application a.1 a.2.1 a.2.2
    if app.parser_reference == some parser_name || app.name == parser_name then some app
    else none

/-- The `ParserDefinition` built for one block parser inside
`SyslogNgParser._build_parser_definitions`. -/
def mkBlockDef (file_path : String) (applications : List (String × String × String))
    (raw_content : Option String) (bp : String × String) : ParserDefinition :=
  let t := parse_block_parser_fields bp.2
  { name := bp.1
    parser_type := infer_parser_type bp.1 bp.2
    file_path := file_path
    metadata := t.1
    applications := find_matching_applications bp.1 applications
    nested_parsers := t.2.2
    conditional_rewrites := t.2.1
    raw_config := raw_content
    parse_error := none }

/-- The minimal `reference`-typed `ParserDefinition` built for one orphaned
application inside `SyslogNgParser._build_parser_definitions`. -/
def mkOrphanStub (file_path : String) (a : String × String × String) : ParserDefinition :=
  { name := a.1
    parser_type := "reference"
    file_path := file_path
    metadata := {}
    applications := [parse_application a.1 a.2.1 a.2.2]
    nested_parsers := []
    conditional_rewrites := []
    raw_config := none
    parse_error := none }

/-- `SyslogNgParser._build_parser_definitions`: one definition per block
parser, then one reference stub per orphaned application. -/
def build_parser_definitions (file_path : String) (block_parsers : List (String × String))
    (applications : List (String × String × String)) (raw_content : Option String) :
    List ParserDefinition :=
  block_parsers.map (mkBlockDef file_path applications raw_content) ++
  (find_orphan_applications block_parsers applications).map (mkOrphanStub file_path)

/-- The synthetic definition of the `except` branch of
`SyslogNgParser.parse_file`. -/
def errorDef (file_path e : String) : ParserDefinition :=
  { name := "ERROR_" ++ file_path, parser_type := "unknown", file_path := file_path,
    metadata := {}, applications := [], nested_parsers := [], conditional_rewrites := [],
    raw_config := none, parse_error := some e }

/-- `SyslogNgParser.parse_file`.  The `try/except` boundary is made explicit:
`exc = some e` models an unexpected exception with message `e` raised while
processing this file's body, which the source converts into a single
synthetic definition instead of propagating. -/
def parse_file (file_path content : String) (extract_raw : Bool)
    (exc : Option String) : List ParserDefinition :=
  match exc with
  | some e => [errorDef file_path e]
  | none =>
    build_parser_definitions file_path (extract_block_parsers content)
      (extract_applications content) (if extract_raw then some content else none)

/-- `SyslogNgParser.parse_multiple_files`: each file is processed through
`parse_file` and the results are concatenated. -/
def parse_multiple_files (files : List (String × String × Option String))
    (extract_raw : Bool) : List ParserDefinition :=
  files.flatMap fun f => parse_file f.1 f.2.1 extract_raw f.2.2

/-! ### Hierarchy building (src/src/analyzer/hierarchy_builder.py) -/

/-- `HierarchyBuilder.VENDOR_MAPPINGS`. -/
def VENDOR_MAPPINGS : List (String × String) :=
  [("f5", "F5 Networks"), ("vmware", "VMware"), ("cisco", "Cisco"),
   ("juniper", "Juniper Networks"), ("paloalto", "Palo Alto Networks"),
   ("checkpoint", "Check Point"), ("microsoft", "Microsoft")]

/-- The special-case table of `HierarchyBuilder._normalize_product_name`. -/
def PRODUCT_SPECIAL : List (String × String) :=
  [("bigip", "BIG-IP"), ("asa", "ASA"), ("ios", "IOS"), ("nxos", "NX-OS"),
   ("iosxe", "IOS-XE")]

/-- Strip the first matching prefix of the list (the `break` loop of
`_extract_from_name`). -/
def stripFirstPref (name : String) : List String → String
  | [] => name
  | p :: t =>
    if p.toList.isPrefixOf name.toList then (name.toList.drop p.toList.length).asString
    else stripFirstPref name t

/-- `HierarchyBuilder._extract_from_name`: strip a known prefix, then split on
the first underscore; without an underscore the whole remainder is the vendor
and the product defaults to `default`. -/
def extract_from_name (parser_name : String) : String × String :=
  let name := stripFirstPref parser_name
    ["app-syslog-", "app-json-", "app-cef-", "app-leef-", "app-raw-", "app-netsource-"]
  if name.toList.contains '_' then
    let sp := name.toList.span (· ≠ '_')
    (sp.1.asString, (sp.2.drop 1).asString)
  else (name, "default")

/-- `HierarchyBuilder._normalize_vendor_name`. -/
def normalize_vendor_name (vendor : String) : String :=
  let vl := lowerStr vendor
  match VENDOR_MAPPINGS.find? fun e => e.1 == vl with
  | some e => e.2
  | none => pyTitle (replCh '-' ' ' (replCh '_' ' ' vendor))

/-- `HierarchyBuilder._normalize_product_name`. -/
def normalize_product_name (product : String) : String :=
  match PRODUCT_SPECIAL.find? fun e => e.1 == lowerStr product with
  | some e => e.2
  | none =>
    if product.toList.length ≤ 4 then upperStr (replCh '_' '-' product)
    else pyTitle (replCh '_' '-' product)

/-- The cache-free computation of `HierarchyBuilder.extract_vendor_product`:
metadata wins when both fields are truthy, otherwise the name-derived values
with field-by-field metadata override, then normalization of truthy values. -/
def computeVP (p : ParserDefinition) : String × String :=
  let m := p.metadata
  let vp :=
    if optTruthy m.vendor && optTruthy m.product then (m.vendor.getD "", m.product.getD "")
    else
      let nm := extract_from_name p.name
      let v :=
        if optTruthy m.vendor && nm.1 ≠ "" then
          (if lowerStr (m.vendor.getD "") ≠ lowerStr nm.1 then m.vendor.getD "" else nm.1)
        else nm.1
      let pr :=
        if optTruthy m.product && nm.2 ≠ "" then
          (if lowerStr (m.product.getD "") ≠ lowerStr nm.2 then m.product.getD "" else nm.2)
        else nm.2
      (v, pr)
  (if vp.1 ≠ "" then normalize_vendor_name vp.1 else vp.1,
   if vp.2 ≠ "" then normalize_product_name vp.2 else vp.2)

/-- `HierarchyBuilder.extract_vendor_product`: the per-name memoization table
(`self.vendor_product_cache`) is threaded explicitly as an association list. -/
def extract_vendor_product (cache : List (String × String × String))
    (p : ParserDefinition) : (String × String) × List (String × String × String) :=
  match cache.find? fun e => e.1 == p.name with
  | some e => ((e.2.1, e.2.2), cache)
  | none =>
    let r := computeVP p
    (r, cache ++ [(p.name, r.1, r.2)])

/-- The grouping table of `build_hierarchy`: vendor name to product name to
parser list, keys in first-insertion order. -/
abbrev Groups := List (String × List (String × List ParserDefinition))

/-- Append a parser under a product key, adding the key if absent. -/
def addProd (pn : String) (p : ParserDefinition) :
    List (String × List ParserDefinition) → List (String × List ParserDefinition)
  | [] => [(pn, [p])]
  | (k, ps) :: t => if k = pn then (k, ps ++ [p]) :: t else (k, ps) :: addProd pn p t

/-- Append a parser under a vendor/product key pair, adding keys if absent. -/
def addGroup (vn pn : String) (p : ParserDefinition) : Groups → Groups
  | [] => [(vn, [(pn, [p])])]
  | (k, prods) :: t =>
    if k = vn then (k, addProd pn p prods) :: t else (k, prods) :: addGroup vn pn p t

/-- The fold state of `build_hierarchy`: memoization cache, grouping table,
and the warnings issued for uncategorizable parsers. -/
structure HState where
  cache : List (String × String × String)
  groups : Groups
  warns : List String

/-- One iteration of the grouping loop of `HierarchyBuilder.build_hierarchy`:
a parser with truthy vendor and product is grouped, otherwise a warning is
recorded (the `logger.warning` call, modeled as an output list). -/
def hstep (st : HState) (p : ParserDefinition) : HState :=
  let r := extract_vendor_product st.cache p
  if r.1.1 ≠ "" && r.1.2 ≠ "" then ⟨r.2, addGroup r.1.1 r.1.2 p st.groups, st.warns⟩
  else ⟨r.2, st.groups, st.warns ++ ["Could not categorize parser: " ++ p.name]⟩

/-- Lexicographic-by-code-point comparison, Python's string ordering. -/
def lexLe : List Char → List Char → Bool
  | [], _ => true
  | _ :: _, [] => false
  | a :: s, b :: t => if a = b then lexLe s t else decide (a.val < b.val)

/-- Insert into a sorted list (used to model Python `sorted`). -/
def insSorted (s : String) : List String → List String
  | [] => [s]
  | x :: t => if lexLe s.toList x.toList then s :: x :: t else x :: insSorted s t

/-- Python `sorted` on strings (insertion sort; only the ordering matters). -/
def sortStr (l : List String) : List String := l.foldr insSorted []

/-- Association-list lookup by key. -/
def lookupA {α : Type} (l : List (String × α)) (k : String) : Option α :=
  (l.find? fun e => e.1 == k).map fun e => e.2

/-- The assembly phase of `HierarchyBuilder.build_hierarchy`: vendors and
products in sorted key order. -/
def assemble (groups : Groups) : SC4STreeData :=
  ⟨(sortStr (groups.map (·.1))).map fun vn =>
    { name := vn
      products :=
        match lookupA groups vn with
        | some prods =>
          (sortStr (prods.map (·.1))).map fun pn =>
            { name := pn, vendor := vn, parsers := (lookupA prods pn).getD [] }
        | none => [] }⟩

/-- `HierarchyBuilder.build_hierarchy` for a fresh builder: the tree plus the
list of `Could not categorize` warnings. -/
def build_hierarchy (parsers : List ParserDefinition) : SC4STreeData × List String :=
  let st := parsers.foldl hstep ⟨[], [], []⟩
  (assemble st.groups, st.warns)

/-! ### Graph views (src/src/models/graph.py) -/

/-- The parser node dictionary built by `GraphBuilder._build_parser_node`;
the keys only present for truthy values become `Option` fields. -/
structure GraphNode where
  name : String
  node_type : String
  parser_type : String
  vendor : String
  product : String
  file_path : String
  metadata : Metadata
  applications : List Application
  nested_parsers : Option (List String)
  conditional_rewrites : Option (List ConditionalRewrite)
  parse_error : Option String
deriving DecidableEq, Repr

/-- `GraphBuilder._build_parser_node`. -/
def build_parser_node (p : ParserDefinition) (vendor product : String) : GraphNode :=
  { name := p.name
    node_type := "parser"
    parser_type := p.parser_type
    vendor := vendor
    product := product
    file_path := p.file_path
    metadata := p.metadata
    applications := p.applications
    nested_parsers := if p.nested_parsers.isEmpty then none else some p.nested_parsers
    conditional_rewrites :=
      if p.conditional_rewrites.isEmpty then none else some p.conditional_rewrites
    parse_error := if optTruthy p.parse_error then p.parse_error else none }

/-- `GraphBuilder.build_flat_list`: the flat searchable list, built by walking
the vendor/product tree. -/
def build_flat_list (tree : SC4STreeData) : List GraphNode :=
  tree.vendors.flatMap fun v =>
    v.products.flatMap fun pr =>
      pr.parsers.map fun p => build_parser_node p v.name pr.name

/-! ## Claim theorems -/

/-- C8: for a `ParserDefinition` named `app-syslog-f5_bigip` with no vendor and
no product in its metadata, a fresh hierarchy builder (empty memoization
cache) resolves the vendor to `F5 Networks` and the product to `BIG-IP`. -/
theorem C8_f5_bigip_resolution :
    (extract_vendor_product []
      { name := "app-syslog-f5_bigip", parser_type := "syslog", file_path := "f" }).1
      = ("F5 Networks", "BIG-IP") := by decide

/-- C4 counterexample: a filter block whose entire content is
`program("sshd", flags(prefix, "ignore-case"))` yields no `FilterExpression`
at all — the program pattern admits no comma between the quoted pattern and
the `flags(...)` clause, and the generic fallback skips calls named
`program` — so the claimed one-element result is false. -/
theorem C4_comma_variant_yields_no_filter :
    parse_filter_block "program(\"sshd\", flags(prefix, \"ignore-case\"))" = [] := by decide

/-- C4 (amended): a filter block whose entire content is
`program("sshd" flags(prefix, "ignore-case"))` — no comma before the flags
clause, as the compiled pattern requires — yields exactly one
`FilterExpression` with kind `program`, pattern `sshd` and flags
`[prefix, ignore-case]`. -/
theorem C4_program_flags_filter :
    parse_filter_block "program(\"sshd\" flags(prefix, \"ignore-case\"))" =
      [{ filter_type := "program", pattern := "sshd", match_type := "string",
         flags := ["prefix", "ignore-case"],
         raw := some "program(\"sshd\" flags(prefix, \"ignore-case\"))" }] := by decide

/-- C6 counterexample: the text `elif (program('x')) { y }` holds exactly one
`elif` occurrence and no `if` or `else`, yet the sweep produces two records —
the if-sweep pattern has no word boundary and also matches the tail of
`elif` — so the claim that an elif occurrence contributes exactly one record
and never an `if`-typed one is false. -/
theorem C6_elif_also_matches_if_sweep :
    (parse_conditional_rewrites "elif (program('x')) \x7b y \x7d").map
      (fun r => r.condition_type) = ["if", "elif"] := by decide

/-- C2 counterexample: with block parser `foo` and an application named `foo`
whose reference `bar` names no block parser of the file, the built
definitions are a genuine `foo` (syslog) and a reference stub also named
`foo` — the stub's name equals a genuine block-parser definition's name,
refuting the no-collision clause. -/
theorem C2_stub_name_collision :
    ((build_parser_definitions "f" [("foo", "x")]
        [("foo", "tag", "parser \x7b bar() \x7d")] none).map
      (fun d => (d.name, d.parser_type))) = [("foo", "syslog"), ("foo", "reference")] := by
  decide

/-- C3 counterexample: the parser named `app-syslog-` derives an empty vendor,
is excluded from the hierarchy with a warning, and the flat list built from
that hierarchy is empty — the definition does not appear in the flat list,
refuting the claim that it still does. -/
theorem C3_uncategorized_absent_from_flat_list :
    build_flat_list (build_hierarchy
        [{ name := "app-syslog-", parser_type := "syslog", file_path := "f" }]).1 = [] ∧
    (build_hierarchy [{ name := "app-syslog-", parser_type := "syslog", file_path := "f" }]).2
      = ["Could not categorize parser: app-syslog-"] := by
  exact ⟨by decide, by decide⟩

/-- Restatement of the format-type inference following the claim's wording:
the first keyword of the stated list contained in the lowered name wins,
otherwise the body checks apply in the stated order, otherwise `syslog`. -/
def inferParserTypeSpec (parser_name parser_content : String) : String :=
  match ["syslog", "json", "cef", "leef", "raw"].find?
      (fun kw => strContains (lowerStr parser_name) kw) with
  | some kw => kw
  | none =>
    if strContains (lowerStr parser_content) "json-parser" then "json"
    else if strContains (lowerStr parser_content) "cef" then "cef"
    else if strContains (lowerStr parser_content) "leef" then "leef"
    else "syslog"

/-- C7: `infer_parser_type` follows the claimed precedence — a format keyword
contained (case-insensitively) in the parser's name, searched in the order
syslog, json, cef, leef, raw; otherwise `json-parser`/`cef`/`leef` in the
body giving json/cef/leef; otherwise syslog. -/
theorem C7_infer_parser_type_follows_spec :
    ∀ parser_name parser_content : String,
      infer_parser_type parser_name parser_content =
        inferParserTypeSpec parser_name parser_content := by
  intro n b
  simp only [infer_parser_type, inferParserTypeSpec, List.find?]
  cases h1 : strContains (lowerStr n) "syslog" <;>
    cases h2 : strContains (lowerStr n) "json" <;>
      cases h3 : strContains (lowerStr n) "cef" <;>
        cases h4 : strContains (lowerStr n) "leef" <;>
          cases h5 : strContains (lowerStr n) "raw" <;>
            simp [h1, h2, h3, h4, h5]

/-- C1: an unexpected exception while processing one file is converted at the
`parse_file` boundary into a one-element list whose definition is named
`ERROR_<path>` and carries the failure text as a non-empty `parse_error`;
the surrounding files of a `parse_multiple_files` batch are processed
unchanged. -/
theorem C1_parse_file_error_boundary :
    ∀ (file_path content e : String) (er : Bool)
      (files1 files2 : List (String × String × Option String)),
      e ≠ "" →
      parse_file file_path content er (some e) = [errorDef file_path e] ∧
      (errorDef file_path e).name = "ERROR_" ++ file_path ∧
      (∃ s, (errorDef file_path e).parse_error = some s ∧ s ≠ "") ∧
      parse_multiple_files (files1 ++ (file_path, content, some e) :: files2) er =
        parse_multiple_files files1 er ++ [errorDef file_path e] ++
          parse_multiple_files files2 er := by
  intro fp c e er f1 f2 he
  refine ⟨rfl, rfl, ⟨e, rfl, he⟩, ?_⟩
  simp [parse_multiple_files, parse_file]

/-- Witness for C1: a concrete failing file between two healthy ones. -/
theorem C1_parse_file_error_boundary_witness :
    parse_file "a.conf" "" false (some "boom") = [errorDef "a.conf" "boom"] ∧
    (errorDef "a.conf" "boom").name = "ERROR_" ++ "a.conf" ∧
    (∃ s, (errorDef "a.conf" "boom").parse_error = some s ∧ s ≠ "") ∧
    parse_multiple_files
        ([("b.conf", "", none)] ++ ("a.conf", "", some "boom") :: [("c.conf", "", none)]) false =
      parse_multiple_files [("b.conf", "", none)] false ++ [errorDef "a.conf" "boom"] ++
        parse_multiple_files [("c.conf", "", none)] false :=
  C1_parse_file_error_boundary "a.conf" "" "boom" false
    [("b.conf", "", none)] [("c.conf", "", none)] (by decide)

/-- C9: every application tuple kept by `extract_applications` has a non-empty
body, and the two degenerate declarations — an empty balanced-brace body and
unbalanced braces — are omitted entirely although their headers are
well-formed. -/
theorem C9_empty_or_unbalanced_application_omitted :
    (∀ (content : String) (t : String × String × String),
      t ∈ extract_applications content → t.2.2 ≠ "") ∧
    extract_applications "application foo [bar] \x7b\x7d" = [] ∧
    extract_applications "application foo [bar] \x7b x" = [] := by
  refine ⟨?_, by decide, by decide⟩
  intro content t ht
  simp only [extract_applications, List.mem_filterMap] at ht
  obtain ⟨m, -, hm⟩ := ht
  by_cases hb : (extract_balanced_braces content.toList (m.endPos - 1)).isEmpty
  · rw [if_pos hb] at hm
    cases hm
  · rw [if_neg hb] at hm
    injection hm with hm
    subst hm
    intro hc
    exact hb (List.isEmpty_iff.mpr (congrArg String.data hc))

/-- Witness for C9: a well-formed application with a non-empty body is kept,
and the theorem yields its body's non-emptiness. -/
theorem C9_empty_or_unbalanced_application_omitted_witness :
    ("a", "b", " x ") ∈ extract_applications "application a [b] \x7b x \x7d" ∧
    (("a", "b", " x ") : String × String × String).2.2 ≠ "" :=
  ⟨by decide,
   C9_empty_or_unbalanced_application_omitted.1 "application a [b] \x7b x \x7d"
     ("a", "b", " x ") (by decide)⟩

/-- The inferred format type of a block parser is always one of the five
format keywords. -/
theorem infer_parser_type_mem :
    ∀ n b : String,
      infer_parser_type n b ∈ (["syslog", "json", "cef", "leef", "raw"] : List String) := by
  intro n b
  simp only [infer_parser_type]
  repeat' split
  all_goals simp

/-- The inferred format type is never the stub marker `reference`. -/
theorem infer_parser_type_ne_reference :
    ∀ n b : String, infer_parser_type n b ≠ "reference" := by
  intro n b h
  have hm := infer_parser_type_mem n b
  rw [h] at hm
  revert hm
  decide

/-- The inferred format type is never the error marker `unknown`. -/
theorem infer_parser_type_ne_unknown :
    ∀ n b : String, infer_parser_type n b ≠ "unknown" := by
  intro n b h
  have hm := infer_parser_type_mem n b
  rw [h] at hm
  revert hm
  decide

/-- C2 (amended): the reference-typed definitions of a file's output are
exactly one stub per orphaned application, in order; each such stub is in
the output, is `reference`-typed and carries the application's name.  (The
stub's name can coincide with a genuine block parser's name when the
application is named after one block parser while referencing a missing
one — see the counterexample.) -/
theorem C2_reference_stub_structure :
    ∀ (fp : String) (bps : List (String × String)) (apps : List (String × String × String))
      (raw : Option String),
      ((build_parser_definitions fp bps apps raw).filter
          (fun d => d.parser_type == "reference")) =
        (find_orphan_applications bps apps).map (mkOrphanStub fp) ∧
      (∀ a ∈ apps, isOrphanApp bps a = true →
        mkOrphanStub fp a ∈ build_parser_definitions fp bps apps raw ∧
        (mkOrphanStub fp a).parser_type = "reference" ∧ (mkOrphanStub fp a).name = a.1) := by
  intro fp bps apps raw
  constructor
  · simp only [build_parser_definitions, List.filter_append]
    rw [List.filter_map, List.filter_map]
    have h1 : bps.filter ((fun d => d.parser_type == "reference") ∘ mkBlockDef fp apps raw)
        = [] := by
      rw [List.filter_eq_nil_iff]
      intro bp _
      simpa [mkBlockDef] using infer_parser_type_ne_reference bp.1 bp.2
    have h2 : (find_orphan_applications bps apps).filter
        ((fun d => d.parser_type == "reference") ∘ mkOrphanStub fp)
        = find_orphan_applications bps apps := by
      rw [List.filter_eq_self]
      intro a _
      simp [mkOrphanStub]
    rw [h1, h2]
    simp
  · intro a ha horph
    refine ⟨?_, rfl, rfl⟩
    simp only [build_parser_definitions]
    exact List.mem_append_right _
      (List.mem_map_of_mem _ (List.mem_filter.mpr ⟨ha, horph⟩))

/-- Witness for C2 at the concrete file of the counterexample. -/
theorem C2_reference_stub_structure_witness :
    mkOrphanStub "f" ("foo", "tag", "parser \x7b bar() \x7d") ∈
      build_parser_definitions "f" [("foo", "x")]
        [("foo", "tag", "parser \x7b bar() \x7d")] none ∧
    (mkOrphanStub "f" ("foo", "tag", "parser \x7b bar() \x7d")).parser_type = "reference" ∧
    (mkOrphanStub "f" ("foo", "tag", "parser \x7b bar() \x7d")).name = "foo" :=
  (C2_reference_stub_structure "f" [("foo", "x")]
      [("foo", "tag", "parser \x7b bar() \x7d")] none).2
    ("foo", "tag", "parser \x7b bar() \x7d") (by decide) (by decide)

/-- C6 (amended): the conditional sweep always lists all `if` records first,
then all `elif` records, then all `else` records; an `elif (cond) { body }`
occurrence need not contribute exactly one record — because the if-sweep
pattern lacks a word boundary, a lone `elif` occurrence contributes its
`elif` record and additionally an `if` record with the same condition, while
an `elif` lying inside the span already consumed by an earlier if-match
contributes only its `elif` record. -/
theorem C6_sweep_order_and_elif_contribution :
    (∀ content : String, ∃ a b c : Nat,
      (parse_conditional_rewrites content).map (fun r => r.condition_type) =
        List.replicate a "if" ++ List.replicate b "elif" ++ List.replicate c "else") ∧
    ((parse_conditional_rewrites "elif (program('x')) \x7b y \x7d").map fun r =>
        (r.condition_type, (r.condition.map fun c => c.pattern).getD "")) =
      [("if", "x"), ("elif", "x")] ∧
    ((parse_conditional_rewrites "if (a) \x7b elif (p) \x7b q \x7d \x7d").map fun r =>
        (r.condition_type, (r.condition.map fun c => c.pattern).getD "")) =
      [("if", "a"), ("elif", "p")] := by
  refine ⟨?_, by decide, by decide⟩
  have h1 : ∀ (l : List MatchRes) (f : MatchRes → ConditionalRewrite) (s : String),
      (∀ m, (f m).condition_type = s) →
      (l.map f).map (fun r => r.condition_type) = List.replicate l.length s := by
    intro l f s hf
    induction l with
    | nil => rfl
    | cons x t ih => simp [hf, ih, List.replicate_succ]
  intro content
  refine ⟨(findIter ifAlts content.toList).length,
          (findIter elifAlts content.toList).length,
          (findIter elseAlts content.toList).length, ?_⟩
  simp only [parse_conditional_rewrites, List.map_append]
  rw [h1 _ _ "if" fun m => rfl, h1 _ _ "elif" fun m => rfl, h1 _ _ "else" fun m => rfl]

/-- C10: in any `parse_file` output a definition is `unknown`-typed exactly
when it is the synthetic error record (the one with `parse_error` set), it is
`reference`-typed exactly when it is an orphan-application stub, and every
definition built from a block parser declaration carries one of the five
format keywords. -/
theorem C10_parser_type_partition :
    ∀ (fp content : String) (er : Bool) (exc : Option String) (d : ParserDefinition),
      d ∈ parse_file fp content er exc →
      ((d.parser_type = "unknown" ↔ d.parse_error.isSome) ∧
       (d.parser_type = "reference" ↔ (exc = none ∧
          ∃ a ∈ find_orphan_applications (extract_block_parsers content)
              (extract_applications content), d = mkOrphanStub fp a)) ∧
       ((exc = none ∧ ∃ bp ∈ extract_block_parsers content,
            d = mkBlockDef fp (extract_applications content)
              (if er then some content else none) bp) →
          d.parser_type ∈ (["syslog", "json", "cef", "leef", "raw"] : List String))) := by
  intro fp content er exc d hd
  match exc with
  | some e =>
    simp only [parse_file, List.mem_singleton] at hd
    subst hd
    refine ⟨by simp [errorDef], ?_, ?_⟩
    · constructor
      · intro h
        exact absurd (show ("unknown" : String) = "reference" from h) (by decide)
      · rintro ⟨h, -⟩
        cases h
    · rintro ⟨h, -⟩
      cases h
  | none =>
    simp only [parse_file, build_parser_definitions, List.mem_append, List.mem_map] at hd
    have hblock : ∀ bp : String × String,
        d = mkBlockDef fp (extract_applications content)
            (if er then some content else none) bp →
        d.parser_type = infer_parser_type bp.1 bp.2 ∧ d.parse_error = none := by
      intro bp h
      subst h
      exact ⟨rfl, rfl⟩
    rcases hd with ⟨bp, hbp, hdef⟩ | ⟨a, ha, hstub⟩
    · obtain ⟨hty, herr⟩ := hblock bp hdef.symm
      refine ⟨?_, ?_, ?_⟩
      · rw [hty, herr]
        simp only [Option.isSome_none, Bool.false_eq_true, iff_false]
        exact infer_parser_type_ne_unknown bp.1 bp.2
      · constructor
        · intro h
          exact absurd (hty.symm.trans h) (infer_parser_type_ne_reference bp.1 bp.2)
        · rintro ⟨-, a, -, hstub⟩
          rw [hstub] at hty
          exact absurd hty.symm (infer_parser_type_ne_reference bp.1 bp.2)
      · rintro ⟨-, bp', -, heq⟩
        rw [heq]
        exact infer_parser_type_mem bp'.1 bp'.2
    · have hty : d.parser_type = "reference" := by rw [← hstub]; rfl
      have herr : d.parse_error = none := by rw [← hstub]; rfl
      refine ⟨?_, ?_, ?_⟩
      · rw [hty, herr]
        decide
      · constructor
        · intro _
          exact ⟨rfl, a, ha, hstub.symm⟩
        · intro _
          exact hty
      · rintro ⟨-, bp', -, heq⟩
        rw [heq]
        exact infer_parser_type_mem bp'.1 bp'.2

/-- The net count of openers minus closers in a span. -/
def balInt (oc cc : Char) : List Char → Int
  | [] => 0
  | c :: t => (if c = oc then 1 else if c = cc then -1 else 0) + balInt oc cc t

/-- Head decomposition of the balance. -/
theorem balInt_cons (oc cc c : Char) (cs : List Char) :
    balInt oc cc (c :: cs) =
      (if c = oc then 1 else if c = cc then -1 else 0) + balInt oc cc cs := rfl

/-- Position `m` of the scanned span holds the matching closer of an opener
standing just before the span: same family, the depth (starting at one for
the opener) stays positive before `m` and the closer at `m` returns it to
zero. -/
def matchingCloseB (oc cc : Char) (s : List Char) (m : Nat) : Bool :=
  (s.get? m == some cc) && decide (balInt oc cc (s.take m) = 0) &&
  ((List.range (m + 1)).all fun k => decide (0 ≤ balInt oc cc (s.take k)))

/-- Unfolding of the decidable matching-closer check. -/
theorem matchingCloseB_eq_true (oc cc : Char) (s : List Char) (m : Nat) :
    matchingCloseB oc cc s m = true ↔
      (s.get? m = some cc ∧ balInt oc cc (s.take m) = 0 ∧
       ∀ k, k ≤ m → 0 ≤ balInt oc cc (s.take k)) := by
  simp [matchingCloseB, List.all_eq_true, Nat.lt_succ_iff, and_assoc]

/-- If position `m` is the matching closer (at depth `d` counted on entry),
the extraction loop returns exactly the characters before it. -/
theorem extract_inner_finds_close (oc cc : Char) (hne : oc ≠ cc) :
    ∀ (s : List Char) (d m : Nat), 1 ≤ d →
      s.get? m = some cc →
      (d : Int) + balInt oc cc (s.take m) = 1 →
      (∀ k, k ≤ m → 1 ≤ (d : Int) + balInt oc cc (s.take k)) →
      extract_balanced_inner oc cc s d = some (s.take m) := by
  intro s
  induction s with
  | nil =>
    intro d m _ hm _ _
    simp at hm
  | cons c t ih =>
    intro d m hd hm hbal hall
    match m with
    | 0 =>
      have hc : c = cc := by simpa using hm
      have hd1 : d = 1 := by
        have : (d : Int) = 1 := by simpa [balInt] using hbal
        exact_mod_cast this
      have hcount : (if c = oc then d + 1 else if c = cc then d - 1 else d) = 0 := by
        rw [if_neg (by rw [hc]; exact fun h => hne h.symm), if_pos hc, hd1]
      simp only [extract_balanced_inner, hcount]
      rfl
    | m' + 1 =>
      have hm' : t.get? m' = some cc := by simpa using hm
      rw [List.take_succ_cons, balInt_cons] at hbal
      have hallS : ∀ k, k ≤ m' →
          1 ≤ (d : Int) +
            ((if c = oc then 1 else if c = cc then -1 else 0) + balInt oc cc (t.take k)) := by
        intro k hk
        have := hall (k + 1) (by omega)
        rwa [List.take_succ_cons, balInt_cons] at this
      by_cases hco : c = oc
      · rw [if_pos hco] at hbal hallS
        have hcount : (if c = oc then d + 1 else if c = cc then d - 1 else d) = d + 1 :=
          if_pos hco
        have ihres := ih (d + 1) m' (by omega) hm'
          (by push_cast; omega)
          (fun k hk => by have := hallS k hk; push_cast; omega)
        simp only [extract_balanced_inner, hcount]
        rw [if_neg (by omega : ¬d + 1 = 0), ihres]
        rfl
      · by_cases hcc : c = cc
        · rw [if_neg hco, if_pos hcc] at hbal hallS
          have h1 := hallS 0 (Nat.zero_le _)
          have hd2 : 2 ≤ d := by
            simp only [List.take_zero, balInt] at h1
            omega
          have hcount : (if c = oc then d + 1 else if c = cc then d - 1 else d) = d - 1 := by
            rw [if_neg hco, if_pos hcc]
          have ihres := ih (d - 1) m' (by omega) hm'
            (by push_cast [Nat.cast_sub (by omega : 1 ≤ d)]; omega)
            (fun k hk => by
              have := hallS k hk
              push_cast [Nat.cast_sub (by omega : 1 ≤ d)]
              omega)
          simp only [extract_balanced_inner, hcount]
          rw [if_neg (by omega : ¬d - 1 = 0), ihres]
          rfl
        · rw [if_neg hco, if_neg hcc] at hbal hallS
          have hcount : (if c = oc then d + 1 else if c = cc then d - 1 else d) = d := by
            rw [if_neg hco, if_neg hcc]
          have ihres := ih d m' hd hm'
            (by omega)
            (fun k hk => by have := hallS k hk; omega)
          simp only [extract_balanced_inner, hcount]
          rw [if_neg (by omega : ¬d = 0), ihres]
          rfl

/-- If no position of the span is a matching closer, the extraction loop
exhausts the input and signals failure. -/
theorem extract_inner_no_close (oc cc : Char) (_hne : oc ≠ cc) :
    ∀ (s : List Char) (d : Nat), 1 ≤ d →
      (∀ m, s.get? m = some cc → (d : Int) + balInt oc cc (s.take m) = 1 →
        (∀ k, k ≤ m → 1 ≤ (d : Int) + balInt oc cc (s.take k)) → False) →
      extract_balanced_inner oc cc s d = none := by
  intro s
  induction s with
  | nil =>
    intro d _ _
    rfl
  | cons c t ih =>
    intro d hd hno
    have htrans : ∀ e : Nat, (e : Int) =
        (d : Int) + (if c = oc then 1 else if c = cc then -1 else 0) →
        (∀ m', t.get? m' = some cc → (e : Int) + balInt oc cc (t.take m') = 1 →
          (∀ k, k ≤ m' → 1 ≤ (e : Int) + balInt oc cc (t.take k)) → False) := by
      intro e he m' h1 h2 h3
      apply hno (m' + 1) (by simpa using h1)
      · rw [List.take_succ_cons, balInt_cons]
        omega
      · intro k hk
        match k with
        | 0 =>
          simp [balInt]
          omega
        | k' + 1 =>
          have := h3 k' (by omega)
          rw [List.take_succ_cons, balInt_cons]
          omega
    by_cases hco : c = oc
    · have hcount : (if c = oc then d + 1 else if c = cc then d - 1 else d) = d + 1 :=
        if_pos hco
      have ihres := ih (d + 1) (by omega)
        (htrans (d + 1) (by rw [if_pos hco]; push_cast; ring))
      simp only [extract_balanced_inner, hcount]
      rw [if_neg (by omega : ¬d + 1 = 0), ihres]
    · by_cases hcc : c = cc
      · by_cases hd1 : d = 1
        · exfalso
          apply hno 0 (by simpa using hcc)
          · simp only [List.take_zero, balInt]
            omega
          · intro k hk
            have hk0 : k = 0 := by omega
            rw [hk0]
            simp only [List.take_zero, balInt]
            omega
        · have hd2 : 2 ≤ d := by omega
          have hcount : (if c = oc then d + 1 else if c = cc then d - 1 else d) = d - 1 := by
            rw [if_neg hco, if_pos hcc]
          have ihres := ih (d - 1) (by omega)
            (htrans (d - 1) (by
              rw [if_neg hco, if_pos hcc]
              push_cast [Nat.cast_sub (by omega : 1 ≤ d)]
              ring))
          simp only [extract_balanced_inner, hcount]
          rw [if_neg (by omega : ¬d - 1 = 0), ihres]
      · have hcount : (if c = oc then d + 1 else if c = cc then d - 1 else d) = d := by
          rw [if_neg hco, if_neg hcc]
        have ihres := ih d hd
          (htrans d (by rw [if_neg hco, if_neg hcc]; ring))
        simp only [extract_balanced_inner, hcount]
        rw [if_neg (by omega : ¬d = 0), ihres]

/-- Success form of the generic extractor: the content up to the matching
closer, whatever the nesting depth. -/
theorem extract_balanced_close (oc cc : Char) (hne : oc ≠ cc)
    (content : List Char) (i m : Nat)
    (hi : content.get? i = some oc)
    (hm : matchingCloseB oc cc (content.drop (i + 1)) m = true) :
    extract_balanced oc cc content i = (content.drop (i + 1)).take m := by
  obtain ⟨h1, h2, h3⟩ := (matchingCloseB_eq_true oc cc _ m).mp hm
  have hsucc := extract_inner_finds_close oc cc hne (content.drop (i + 1)) 1 m le_rfl h1
    (by omega) (fun k hk => by have := h3 k hk; omega)
  have hi' : content[i]? = some oc := by rw [← List.get?_eq_getElem?]; exact hi
  simp [extract_balanced, hi', hsucc]

/-- Failure form of the generic extractor: no matching closer, empty result. -/
theorem extract_balanced_unclosed (oc cc : Char) (hne : oc ≠ cc)
    (content : List Char) (i : Nat)
    (hi : content.get? i = some oc)
    (hm : ∀ m, m < (content.drop (i + 1)).length →
      matchingCloseB oc cc (content.drop (i + 1)) m = false) :
    extract_balanced oc cc content i = [] := by
  have hfail := extract_inner_no_close oc cc hne (content.drop (i + 1)) 1 le_rfl ?_
  · have hi' : content[i]? = some oc := by rw [← List.get?_eq_getElem?]; exact hi
    simp [extract_balanced, hi', hfail]
  · intro m h1 h2 h3
    have hlen : m < (content.drop (i + 1)).length := by
      by_contra hge
      rw [List.get?_eq_none.mpr (by omega)] at h1
      cases h1
    have htrue : matchingCloseB oc cc (content.drop (i + 1)) m = true :=
      (matchingCloseB_eq_true oc cc _ m).mpr
        ⟨h1, by omega, fun k hk => by have := h3 k hk; omega⟩
    rw [hm m hlen] at htrue
    cases htrue

/-- C5: for either delimiter family, the extractor anchored at an opener with
a matching closer returns exactly the substring strictly between them, at any
nesting depth; when the span ends before the depth counter returns to zero it
returns the empty string (and, being a total function, never raises). -/
theorem C5_balanced_delimiter_extraction :
    (∀ (content : List Char) (i m : Nat), content.get? i = some '(' →
      matchingCloseB '(' ')' (content.drop (i + 1)) m = true →
      extract_balanced_parens content i = (content.drop (i + 1)).take m) ∧
    (∀ (content : List Char) (i : Nat), content.get? i = some '(' →
      (∀ m, m < (content.drop (i + 1)).length →
        matchingCloseB '(' ')' (content.drop (i + 1)) m = false) →
      extract_balanced_parens content i = []) ∧
    (∀ (content : List Char) (i m : Nat), content.get? i = some '\x7b' →
      matchingCloseB '\x7b' '\x7d' (content.drop (i + 1)) m = true →
      extract_balanced_braces content i = (content.drop (i + 1)).take m) ∧
    (∀ (content : List Char) (i : Nat), content.get? i = some '\x7b' →
      (∀ m, m < (content.drop (i + 1)).length →
        matchingCloseB '\x7b' '\x7d' (content.drop (i + 1)) m = false) →
      extract_balanced_braces content i = []) :=
  ⟨fun c i m hi hm => extract_balanced_close _ _ (by decide) c i m hi hm,
   fun c i hi hm => extract_balanced_unclosed _ _ (by decide) c i hi hm,
   fun c i m hi hm => extract_balanced_close _ _ (by decide) c i m hi hm,
   fun c i hi hm => extract_balanced_unclosed _ _ (by decide) c i hi hm⟩

/-- Witness for C5: a nested balanced span for each family, and a truncated
span for each family. -/
theorem C5_balanced_delimiter_extraction_witness :
    extract_balanced_parens "(a(b)c)x".toList 0 = ("(a(b)c)x".toList.drop 1).take 5 ∧
    extract_balanced_parens "((a)".toList 0 = [] ∧
    extract_balanced_braces "\x7ba\x7bb\x7dc\x7dx".toList 0 =
      ("\x7ba\x7bb\x7dc\x7dx".toList.drop 1).take 5 ∧
    extract_balanced_braces "\x7b\x7ba\x7d".toList 0 = [] :=
  ⟨C5_balanced_delimiter_extraction.1 _ 0 5 (by decide) (by decide),
   C5_balanced_delimiter_extraction.2.1 _ 0 (by decide) (by decide),
   C5_balanced_delimiter_extraction.2.2.1 _ 0 5 (by decide) (by decide),
   C5_balanced_delimiter_extraction.2.2.2 _ 0 (by decide) (by decide)⟩

/-- No parser named `bad` is stored in a product list after `addProd`, when
none was there before and the added parser is not named `bad`. -/
theorem addProd_ok (bad pn : String) (p : ParserDefinition) :
    ∀ l : List (String × List ParserDefinition),
      (∀ pr ∈ l, ∀ q ∈ pr.2, q.name ≠ bad) → p.name ≠ bad →
      ∀ pr ∈ addProd pn p l, ∀ q ∈ pr.2, q.name ≠ bad := by
  intro l
  induction l with
  | nil =>
    intro _ hp pr hpr q hq
    simp only [addProd, List.mem_singleton] at hpr
    subst hpr
    simp only [List.mem_singleton] at hq
    subst hq
    exact hp
  | cons e t ih =>
    intro hl hp pr hpr q hq
    simp only [addProd] at hpr
    by_cases he : e.1 = pn
    · rw [if_pos he] at hpr
      rcases List.mem_cons.mp hpr with h | h
      · subst h
        rcases List.mem_append.mp hq with h2 | h2
        · exact hl e (List.mem_cons_self _ _) q h2
        · rw [List.mem_singleton.mp h2]
          exact hp
      · exact hl pr (List.mem_cons_of_mem _ h) q hq
    · rw [if_neg he] at hpr
      rcases List.mem_cons.mp hpr with h | h
      · subst h
        exact hl e (List.mem_cons_self _ _) q hq
      · exact ih (fun pr h => hl pr (List.mem_cons_of_mem _ h)) hp pr h q hq

/-- No parser named `bad` is stored in the grouping table after `addGroup`,
when none was there before and the added parser is not named `bad`. -/
theorem addGroup_ok (bad vn pn : String) (p : ParserDefinition) :
    ∀ groups : Groups,
      (∀ g ∈ groups, ∀ pr ∈ g.2, ∀ q ∈ pr.2, q.name ≠ bad) → p.name ≠ bad →
      ∀ g ∈ addGroup vn pn p groups, ∀ pr ∈ g.2, ∀ q ∈ pr.2, q.name ≠ bad := by
  intro groups
  induction groups with
  | nil =>
    intro _ hp g hg
    simp only [addGroup, List.mem_singleton] at hg
    subst hg
    intro pr hpr q hq
    simp only [List.mem_singleton] at hpr
    subst hpr
    simp only [List.mem_singleton] at hq
    subst hq
    exact hp
  | cons e t ih =>
    intro hl hp g hg
    simp only [addGroup] at hg
    by_cases he : e.1 = vn
    · rw [if_pos he] at hg
      rcases List.mem_cons.mp hg with h | h
      · subst h
        exact addProd_ok bad pn p e.2 (hl e (List.mem_cons_self _ _)) hp
      · exact hl g (List.mem_cons_of_mem _ h)
    · rw [if_neg he] at hg
      rcases List.mem_cons.mp hg with h | h
      · subst h
        exact hl e (List.mem_cons_self _ _)
      · exact ih (fun g h => hl g (List.mem_cons_of_mem _ h)) hp g h

/-- One `hstep` preserves the two invariants — every cached entry for the bad
name is falsy, no grouped parser bears the bad name — keeps old warnings, and
records the warning when the processed parser bears the bad name. -/
theorem hstep_preserves (bad : String) (st : HState) (p : ParserDefinition)
    (hc : ∀ e ∈ st.cache, e.1 = bad → e.2.1 = "" ∨ e.2.2 = "")
    (hg : ∀ g ∈ st.groups, ∀ pr ∈ g.2, ∀ q ∈ pr.2, q.name ≠ bad)
    (hbad : p.name = bad → (computeVP p).1 = "" ∨ (computeVP p).2 = "") :
    (∀ e ∈ (hstep st p).cache, e.1 = bad → e.2.1 = "" ∨ e.2.2 = "") ∧
    (∀ g ∈ (hstep st p).groups, ∀ pr ∈ g.2, ∀ q ∈ pr.2, q.name ≠ bad) ∧
    (∀ w ∈ st.warns, w ∈ (hstep st p).warns) ∧
    (p.name = bad → ("Could not categorize parser: " ++ p.name) ∈ (hstep st p).warns) := by
  have hmain : ∀ r : (String × String) × List (String × String × String),
      extract_vendor_product st.cache p = r →
      (p.name = bad → r.1.1 = "" ∨ r.1.2 = "") ∧
      (∀ e ∈ r.2, e.1 = bad → e.2.1 = "" ∨ e.2.2 = "") := by
    intro r hr
    simp only [extract_vendor_product] at hr
    cases hfind : st.cache.find? fun e => e.1 == p.name with
    | some e =>
      rw [hfind] at hr
      subst hr
      refine ⟨fun hpn => ?_, hc⟩
      have hmem := List.mem_of_find?_eq_some hfind
      have hkey : e.1 = p.name := by
        have := List.find?_some hfind
        simpa using this
      exact hc e hmem (hkey.trans hpn)
    | none =>
      rw [hfind] at hr
      subst hr
      refine ⟨hbad, ?_⟩
      intro e he hbn
      rcases List.mem_append.mp he with h | h
      · exact hc e h hbn
      · rw [List.mem_singleton.mp h] at hbn ⊢
        simpa using hbad hbn
  obtain ⟨hfalsy, hcache⟩ := hmain _ rfl
  simp only [hstep]
  by_cases hcond : ((extract_vendor_product st.cache p).1.1 ≠ "" &&
      (extract_vendor_product st.cache p).1.2 ≠ "") = true
  · rw [if_pos hcond]
    have hpn : p.name ≠ bad := by
      intro hpn
      rcases hfalsy hpn with h | h <;>
        simp [h] at hcond
    refine ⟨hcache, addGroup_ok bad _ _ p st.groups hg hpn, fun w hw => hw, ?_⟩
    intro h
    exact absurd h hpn
  · rw [if_neg hcond]
    refine ⟨hcache, hg, fun w hw => List.mem_append_left _ hw, ?_⟩
    intro _
    exact List.mem_append_right _ (List.mem_singleton.mpr rfl)

/-- The grouping fold keeps the two invariants and only ever appends
warnings. -/
theorem foldl_hstep_inv (bad : String) :
    ∀ (parsers : List ParserDefinition) (st : HState),
      (∀ e ∈ st.cache, e.1 = bad → e.2.1 = "" ∨ e.2.2 = "") →
      (∀ g ∈ st.groups, ∀ pr ∈ g.2, ∀ q ∈ pr.2, q.name ≠ bad) →
      (∀ q ∈ parsers, q.name = bad → (computeVP q).1 = "" ∨ (computeVP q).2 = "") →
      (∀ e ∈ (parsers.foldl hstep st).cache, e.1 = bad → e.2.1 = "" ∨ e.2.2 = "") ∧
      (∀ g ∈ (parsers.foldl hstep st).groups, ∀ pr ∈ g.2, ∀ q ∈ pr.2, q.name ≠ bad) ∧
      (∀ w ∈ st.warns, w ∈ (parsers.foldl hstep st).warns) := by
  intro parsers
  induction parsers with
  | nil =>
    intro st hc hg _
    exact ⟨hc, hg, fun w hw => hw⟩
  | cons p t ih =>
    intro st hc hg hall
    obtain ⟨hc', hg', hmono, -⟩ := hstep_preserves bad st p hc hg
      (hall p (List.mem_cons_self _ _))
    obtain ⟨ihc, ihg, ihw⟩ := ih (hstep st p) hc' hg'
      (fun q hq => hall q (List.mem_cons_of_mem _ hq))
    exact ⟨ihc, ihg, fun w hw => ihw w (hmono w hw)⟩

/-- If some parser of the list bears the bad name, its warning appears in the
final state. -/
theorem foldl_hstep_warn (bad : String) :
    ∀ (parsers : List ParserDefinition) (st : HState),
      (∀ e ∈ st.cache, e.1 = bad → e.2.1 = "" ∨ e.2.2 = "") →
      (∀ g ∈ st.groups, ∀ pr ∈ g.2, ∀ q ∈ pr.2, q.name ≠ bad) →
      (∀ q ∈ parsers, q.name = bad → (computeVP q).1 = "" ∨ (computeVP q).2 = "") →
      ∀ p ∈ parsers, p.name = bad →
      ("Could not categorize parser: " ++ bad) ∈ (parsers.foldl hstep st).warns := by
  intro parsers
  induction parsers with
  | nil =>
    intro st _ _ _ p hp
    cases hp
  | cons x t ih =>
    intro st hc hg hall p hp hpn
    obtain ⟨hc', hg', hmono, hwarn⟩ := hstep_preserves bad st x hc hg
      (hall x (List.mem_cons_self _ _))
    rcases List.mem_cons.mp hp with h | h
    · subst h
      have hw := hwarn hpn
      rw [hpn] at hw
      obtain ⟨-, -, ihw⟩ := foldl_hstep_inv bad t (hstep st p) hc' hg'
        (fun q hq => hall q (List.mem_cons_of_mem _ hq))
      exact ihw _ hw
    · exact ih (hstep st x) hc' hg'
        (fun q hq => hall q (List.mem_cons_of_mem _ hq)) p h hpn

/-- Parsers placed by `assemble` all come from the grouping table. -/
theorem assemble_excludes (bad : String) (groups : Groups)
    (hg : ∀ g ∈ groups, ∀ pr ∈ g.2, ∀ q ∈ pr.2, q.name ≠ bad) :
    ∀ v ∈ (assemble groups).vendors, ∀ pr ∈ v.products, ∀ q ∈ pr.parsers,
      q.name ≠ bad := by
  intro v hv pr hpr q hq
  simp only [assemble, List.mem_map] at hv
  obtain ⟨vn, -, hveq⟩ := hv
  subst hveq
  simp only at hpr
  cases hfind : lookupA groups vn with
  | none =>
    rw [hfind] at hpr
    cases hpr
  | some prods =>
    rw [hfind] at hpr
    simp only [List.mem_map] at hpr
    obtain ⟨pn, -, hpreq⟩ := hpr
    subst hpreq
    simp only at hq
    have hprods : (vn, prods) ∈ groups := by
      simp only [lookupA, Option.map_eq_some'] at hfind
      obtain ⟨e, he, heq⟩ := hfind
      have hkey : e.1 = vn := by simpa using List.find?_some he
      have := List.mem_of_find?_eq_some he
      rwa [show e = (vn, prods) from Prod.ext hkey heq] at this
    cases hfind2 : lookupA prods pn with
    | none =>
      rw [hfind2] at hq
      cases hq
    | some l =>
      rw [hfind2] at hq
      have hl : (pn, l) ∈ prods := by
        simp only [lookupA, Option.map_eq_some'] at hfind2
        obtain ⟨e, he, heq⟩ := hfind2
        have hkey : e.1 = pn := by simpa using List.find?_some he
        have := List.mem_of_find?_eq_some he
        rwa [show e = (pn, l) from Prod.ext hkey heq] at this
      exact hg (vn, prods) hprods (pn, l) hl q hq

/-- C3 (amended): a `ParserDefinition` whose vendor or product cannot be
determined (for its name, across the memoized builder state) is excluded
from the vendor/product hierarchy and reported by a warning; and — contrary
to the original claim — it does not appear in the flat searchable list
either, because the flat list is built by walking that same hierarchy. -/
theorem C3_uncategorized_excluded_and_reported :
    ∀ (parsers : List ParserDefinition) (p : ParserDefinition),
      p ∈ parsers →
      (∀ q ∈ parsers, q.name = p.name →
        (computeVP q).1 = "" ∨ (computeVP q).2 = "") →
      ("Could not categorize parser: " ++ p.name) ∈ (build_hierarchy parsers).2 ∧
      (∀ v ∈ (build_hierarchy parsers).1.vendors, ∀ pr ∈ v.products,
        ∀ q ∈ pr.parsers, q.name ≠ p.name) ∧
      (∀ node ∈ build_flat_list (build_hierarchy parsers).1, node.name ≠ p.name) := by
  intro parsers p hp hall
  have hc0 : ∀ e ∈ ([] : List (String × String × String)), e.1 = p.name →
      e.2.1 = "" ∨ e.2.2 = "" := by
    intro e he
    cases he
  have hg0 : ∀ g ∈ ([] : Groups), ∀ pr ∈ g.2, ∀ q ∈ pr.2, q.name ≠ p.name := by
    intro g hg
    cases hg
  obtain ⟨-, hgroups, -⟩ :=
    foldl_hstep_inv p.name parsers ⟨[], [], []⟩ hc0 hg0 hall
  have hwarn :=
    foldl_hstep_warn p.name parsers ⟨[], [], []⟩ hc0 hg0 hall p hp rfl
  have htree := assemble_excludes p.name _ hgroups
  refine ⟨hwarn, htree, ?_⟩
  intro node hnode
  simp only [build_flat_list, List.mem_flatMap, List.mem_map] at hnode
  obtain ⟨v, hv, pr, hpr, q, hq, hnodeq⟩ := hnode
  subst hnodeq
  exact htree v hv pr hpr q hq

/-- Witness for C3 at the concrete uncategorizable parser of the
counterexample. -/
theorem C3_uncategorized_excluded_and_reported_witness :
    ("Could not categorize parser: " ++ "app-syslog-") ∈
      (build_hierarchy
        [{ name := "app-syslog-", parser_type := "syslog", file_path := "f" }]).2 ∧
    (∀ v ∈ (build_hierarchy
        [{ name := "app-syslog-", parser_type := "syslog", file_path := "f" }]).1.vendors,
      ∀ pr ∈ v.products, ∀ q ∈ pr.parsers, q.name ≠ "app-syslog-") ∧
    (∀ node ∈ build_flat_list (build_hierarchy
        [{ name := "app-syslog-", parser_type := "syslog", file_path := "f" }]).1,
      node.name ≠ "app-syslog-") :=
  C3_uncategorized_excluded_and_reported
    [{ name := "app-syslog-", parser_type := "syslog", file_path := "f" }]
    { name := "app-syslog-", parser_type := "syslog", file_path := "f" }
    (by decide)
    (by
      intro q hq _
      rw [List.mem_singleton.mp hq]
      decide)

/-- Witness for C10 at the synthetic error record of a failing file. -/
theorem C10_parser_type_partition_witness :
    ((errorDef "f" "boom").parser_type = "unknown" ↔
      (errorDef "f" "boom").parse_error.isSome) ∧
    ((errorDef "f" "boom").parser_type = "reference" ↔
      ((some "boom" : Option String) = none ∧
       ∃ a ∈ find_orphan_applications (extract_block_parsers "") (extract_applications ""),
         errorDef "f" "boom" = mkOrphanStub "f" a)) ∧
    (((some "boom" : Option String) = none ∧
      ∃ bp ∈ extract_block_parsers "",
        errorDef "f" "boom" = mkBlockDef "f" (extract_applications "") none bp) →
      (errorDef "f" "boom").parser_type ∈
        (["syslog", "json", "cef", "leef", "raw"] : List String)) :=
  C10_parser_type_partition "f" "" false (some "boom") (errorDef "f" "boom") (by decide)

end SC4S
